import Mathlib

/-!
# StorageW — a shallow embedding of the `Cookies` codec and query layer

This file embeds the `Cookies` class of the StorageW repository (the richer
variant, whose entries carry a `type` tag) in Lean 4 and proves the frozen
claims about it.

JavaScript strings are modelled as `List Char`.  The ambient state the class
reads and writes (`document.cookie` plus `navigator.cookieEnabled`) is a
record `St`; every `store*` function takes the state and returns it updated.
`JSON.parse` and `JSON.stringify` are platform builtins, not repository code,
so the functions that call them are parameterised over them.
-/

/-- The whitespace characters removed by the JavaScript `trim()` of the
source (space, tab, newline, carriage return, vertical tab, form feed). -/
def jsWs (c : Char) : Bool :=
  c = ' ' || c = '\t' || c = '\n' || c = '\r' || c = '\x0b' || c = '\x0c'

/-- Remove trailing whitespace. -/
def trimEnd (l : List Char) : List Char :=
  (l.reverse.dropWhile jsWs).reverse

/-- JavaScript `String.prototype.trim`. -/
def jsTrim (l : List Char) : List Char :=
  trimEnd (l.dropWhile jsWs)

/-- Helper for `splitOn`: the first segment and the remaining segments.
`splitOn` itself never returns an empty list, which this shape makes
plain by construction. -/
def splitOnAux (c : Char) : List Char → List Char × List (List Char)
  | [] => ([], [])
  | x :: xs =>
    let r := splitOnAux c xs
    if x = c then ([], r.1 :: r.2) else (x :: r.1, r.2)

/-- JavaScript `String.prototype.split` with a one-character separator:
every occurrence splits, empty segments are kept. -/
def splitOn (c : Char) (l : List Char) : List (List Char) :=
  (splitOnAux c l).1 :: (splitOnAux c l).2

/-- JavaScript `String.prototype.indexOf` for a single character:
the index of the first occurrence, `-1` when there is none. -/
def jsIndexOf (c : Char) : List Char → Int
  | [] => -1
  | x :: xs =>
    if x = c then 0
    else
      let r := jsIndexOf c xs
      if r = -1 then -1 else r + 1

/-- `l.substring(i + 1)` for `i = jsIndexOf c l`: everything after the first
occurrence of `c`, or the whole string when `c` does not occur (`i = -1`). -/
def afterFirst (c : Char) (l : List Char) : List Char :=
  l.drop (jsIndexOf c l + 1).toNat

/-- Segments joined with a one-character separator (the specification-side
description of what the `forEach` append loops of the source build). -/
def joinSep (sep : Char) : List (List Char) → List Char
  | [] => []
  | [x] => x
  | x :: y :: xs => x ++ sep :: joinSep sep (y :: xs)

/-- `sep`-preceded copy of each segment, concatenated: the tail the append
loops add after a non-blank accumulator. -/
def tailSep (sep : Char) : List (List Char) → List Char
  | [] => []
  | x :: xs => sep :: x ++ tailSep sep xs

/-- The append loop shared by `store`, `storeArray` and `storeAsContainer`:
fold the segments into the accumulator, writing the segment alone when the
accumulator is blank and `acc ++ sep ++ segment` otherwise. -/
def strLoop (sep : Char) : List (List Char) → List Char → List Char
  | [], acc => acc
  | s :: rest, acc =>
    strLoop sep rest (if jsTrim acc = [] then s else acc ++ sep :: s)

/-! ## The data model -/

/-- A decoded JSON value (the result of the platform's `JSON.parse`).  The
codec never inspects its structure, it only stores it, so a small type
suffices. -/
inductive JVal where
  | null
  | bool (b : Bool)
  | num (n : Int)
  | str (s : List Char)
  | arr (xs : List JVal)
  | obj (fields : List (List Char × JVal))

/-- A sub-cookie inside a container value: in the source every sub-cookie is
built with `type: 'string'` and a string value. -/
structure SubCookie where
  id : List Char
  type : List Char
  value : List Char
deriving DecidableEq

/-- The value slot of a cookie object: a string, a parsed JSON value, or an
array of sub-cookies. -/
inductive CVal where
  | str (s : List Char)
  | jsonV (j : JVal)
  | arr (cs : List SubCookie)

/-- A `Cookie` object as the source builds it: `{ id, type, value }`. -/
structure Cookie where
  id : List Char
  type : List Char
  value : CVal

/-- The ambient browser state the class reads and writes:
`document.cookie` and `navigator.cookieEnabled`. -/
structure St where
  cookie : List Char
  enabled : Bool

/-- A query handed to `first` / `find`: the source dispatches on
`Number.isInteger`, `typeof query === "string"` and `instanceof RegExp`;
anything else falls through every branch.  A regular expression is modelled
by the predicate its `test` computes on the id. -/
inductive Query where
  | int (i : Int)
  | str (s : List Char)
  | pat (p : List Char → Bool)
  | other

/-- A field of an item object handed to the `store*` functions, before any
shape validation: missing (`hasOwn` is false), a string, an array of
sub-item objects, or some other non-array object. -/
inductive JF0 where
  | absent
  | str (s : List Char)
  | objOther

/-- A sub-item of a container item's `value` array. -/
structure SubItem where
  id : JF0
  value : JF0

/-- A field of a top-level item object handed to the `store*` functions. -/
inductive JF where
  | absent
  | str (s : List Char)
  | arr (xs : List SubItem)
  | objOther

/-- An item object handed to the `store*` functions before validation. -/
structure RawItem where
  id : JF
  value : JF

/-- The value of a string field, used only under a shape guard that has
already established the field is a string. -/
def JF.asStr : JF → List Char
  | .str s => s
  | _ => []

/-- Same, for sub-item fields. -/
def JF0.asStr : JF0 → List Char
  | .str s => s
  | _ => []

/-- What a batch store call leaves behind: the returned boolean, the updated
state, and the counts a `console.error` line reported, when one was
emitted. -/
structure SRes where
  ok : Bool
  st : St
  err : Option (Nat × Nat)

/-! ## Decode (`Cookies.all`) -/

namespace Cookies

/-- One `;`-separated segment decoded as in `Cookies.all`: the part before
the first `=` (trimmed) is the id, `substring(indexOf('=') + 1)` (trimmed)
is the value, and the type tag is `'string'`. -/
def decodeSeg (seg : List Char) : Cookie :=
  { id := jsTrim (splitOn '=' seg).headI
    type := "string".toList
    value := .str (jsTrim (afterFirst '=' seg)) }

/-- `Cookies.all()`: empty when the store is disabled or blank, otherwise
the `;`-split of `document.cookie` decoded segment by segment. -/
def all (st : St) : List Cookie :=
  if st.enabled = false then []
  else if jsTrim st.cookie = [] then []
  else (splitOn ';' st.cookie).map decodeSeg

end Cookies

example : Cookies.all ⟨"a=1;b=2".toList, true⟩ =
    [⟨"a".toList, "string".toList, .str "1".toList⟩,
     ⟨"b".toList, "string".toList, .str "2".toList⟩] := by rfl

example : Cookies.all ⟨"abc".toList, true⟩ =
    [⟨"abc".toList, "string".toList, .str "abc".toList⟩] := by rfl

example : Cookies.all ⟨"  ".toList, true⟩ = [] := by rfl

/-! ## Query engine (`first`, `firstIn`, `find`, `findIn`) -/

namespace Cookies

/-- The three query branches shared verbatim by `first` and `firstIn` (run
once the guard of either function has passed).  An integer is treated as a
positional index: non-negative in `[0, length)`, negative strictly between
`-length` and `0` (resolved as `length + query`); a string is exact-matched
against ids, a pattern tested against ids, everything else and every
unmatched query falls through to `null`. -/
def queryFirst (cookies : List Cookie) (q : Query) : Option Cookie :=
  match q with
  | .int i =>
    if 0 ≤ i ∧ i < (cookies.length : Int) then cookies.get? i.toNat
    else if i < 0 ∧ -(cookies.length : Int) < i then
      cookies.get? ((cookies.length : Int) + i).toNat
    else none
  | .str s =>
    match cookies.filter (fun item => item.id == s) with
    | [] => none
    | c :: _ => some c
  | .pat p =>
    match cookies.filter (fun item => p item.id) with
    | [] => none
    | c :: _ => some c
  | .other => none

/-- The three query branches shared verbatim by `find` and `findIn`: the
all-matches variants (the integer branch wraps its element in a one-element
array). -/
def queryFind (cookies : List Cookie) (q : Query) : Option (List Cookie) :=
  match q with
  | .int i =>
    if 0 ≤ i ∧ i < (cookies.length : Int) then
      (cookies.get? i.toNat).map (fun c => [c])
    else if i < 0 ∧ -(cookies.length : Int) < i then
      (cookies.get? ((cookies.length : Int) + i).toNat).map (fun c => [c])
    else none
  | .str s =>
    match cookies.filter (fun item => item.id == s) with
    | [] => none
    | l => some l
  | .pat p =>
    match cookies.filter (fun item => p item.id) with
    | [] => none
    | l => some l
  | .other => none

/-- `Cookies.first(query)`: decode the store, then resolve the query when
the decoded sequence is non-empty. -/
def first (st : St) (q : Query) : Option Cookie :=
  let cookies := all st
  if cookies.length ≠ 0 then queryFirst cookies q else none

/-- `Cookies.find(query)` over the decoded store. -/
def find (st : St) (q : Query) : Option (List Cookie) :=
  let cookies := all st
  if cookies.length ≠ 0 then queryFind cookies q else none

/-- The conjunction the validation callback of `firstIn`/`findIn` evaluates
on each element: the element is an object exposing `id` and `value`, the id
is a string and the value is a string or (typeof) an object.  In this typed
model every element is such an object with a string id, so only the value
check can vary: a stored JSON number or boolean has typeof `number` /
`boolean` and fails it. -/
def cookieShapeExpr (c : Cookie) : Bool :=
  match c.value with
  | .str _ => true
  | .arr _ => true
  | .jsonV j =>
    match j with
    | .num _ => false
    | .bool _ => false
    | _ => true

/-- The validation callback of `firstIn`/`findIn` as the source writes it:
an arrow function whose body is a braced block that evaluates
`cookieShapeExpr` as a bare expression statement and contains no `return`,
so the callback returns `undefined`, which is falsy. -/
def everyCb (c : Cookie) : Bool :=
  (fun _ => false) (cookieShapeExpr c)

/-- `Cookies.firstIn(cookies, query)`: the same resolution as `first`, run
on an externally supplied sequence guarded by
`Array.isArray && cookies.length && cookies.every(everyCb)`. -/
def firstIn (cookies : List Cookie) (q : Query) : Option Cookie :=
  if cookies.length ≠ 0 ∧ cookies.all everyCb = true then
    queryFirst cookies q
  else none

/-- `Cookies.findIn(cookies, query)`: the same resolution as `find`, behind
the same guard as `firstIn`. -/
def findIn (cookies : List Cookie) (q : Query) : Option (List Cookie) :=
  if cookies.length ≠ 0 ∧ cookies.all everyCb = true then
    queryFind cookies q
  else none

end Cookies

example : Cookies.first ⟨"a=1;b=2".toList, true⟩ (.str "b".toList) =
    some ⟨"b".toList, "string".toList, .str "2".toList⟩ := by rfl
example : Cookies.first ⟨"a=1;b=2".toList, true⟩ (.int 1) =
    some ⟨"b".toList, "string".toList, .str "2".toList⟩ := by rfl
example : Cookies.first ⟨"a=1;b=2".toList, true⟩ (.int (-1)) =
    some ⟨"b".toList, "string".toList, .str "2".toList⟩ := by rfl
example : Cookies.first ⟨"a=1;b=2".toList, true⟩ (.int (-2)) = none := by rfl

/-! ## Encode (`store`, `storeArray`, `storeAsContainer`, `storeArrayAsJSON`) -/

namespace Cookies

/-- The shape guard of `store` and of each element of `storeArray`: an
object exposing `id` and `value`, both strings. -/
def scalarShaped (it : RawItem) : Bool :=
  (match it.id with | .str _ => true | _ => false) &&
  (match it.value with | .str _ => true | _ => false)

/-- The flat text `id=value` of a validated scalar item. -/
def entryStr (it : RawItem) : List Char :=
  it.id.asStr ++ '=' :: it.value.asStr

/-- `Cookies.store(item)`: append `id=value` to `document.cookie`
(`cookies + added` when the current content is blank, `cookies + ';' +
added` otherwise) and report whether the shape validated. -/
def store (item : RawItem) (st : St) : Bool × St :=
  if scalarShaped item = true then
    let added := entryStr item
    let c := if jsTrim st.cookie = [] then st.cookie ++ added
             else st.cookie ++ ';' :: added
    (true, { st with cookie := c })
  else (false, st)

/-- `Cookies.storeArray(items)`: validate that `items` is a non-empty array
of scalar-shaped items; on success rebuild the flat string in one loop
(starting the string over from the first entry when the current content is
blank) and write it once.  The `forEach` increments
`numberOfAddedCookies` once per item, so inside the validated branch the
count check `numberOfItems === numberOfAddedCookies` always holds and the
write happens; otherwise the counts stay `0`, a
`console.error` reports them and `false` is returned with nothing
written. -/
def storeArray (items : List RawItem) (st : St) : SRes :=
  if 0 < items.length ∧ items.all scalarShaped = true then
    { ok := true
      st := { st with cookie := strLoop ';' (items.map entryStr) st.cookie }
      err := none }
  else
    { ok := false, st := st, err := some (0, 0) }

/-- The shape guard of each sub-item of `storeAsContainer`. -/
def subShaped (s : SubItem) : Bool :=
  (match s.id with | .str _ => true | _ => false) &&
  (match s.value with | .str _ => true | _ => false)

/-- The packed text `subid=subvalue` of a validated sub-item. -/
def subStr (s : SubItem) : List Char :=
  s.id.asStr ++ '=' :: s.value.asStr

/-- `Cookies.storeAsContainer(item)`: valid only when `value` is a
non-empty array of scalar-shaped sub-items.  The sub-items are packed as
`subid=subvalue` joined by `&` (the same blank-accumulator loop as the
other stores), and then — unlike `store` — the text `id=<packed>` is
written as `document.cookie = cookies + cookie`, with no `;` separator
before it.  The sub-count check always holds, for the same reason as in
`storeArray`. -/
def storeAsContainer (item : RawItem) (st : St) : Bool × St :=
  match item.value with
  | .arr subs =>
    if (match item.id with | .str _ => true | _ => false) = true ∧
        0 < subs.length ∧ subs.all subShaped = true then
      let packed := strLoop '&' (subs.map subStr) []
      (true, { st with cookie := st.cookie ++ item.id.asStr ++ '=' :: packed })
    else (false, st)
  | _ => (false, st)

/-- The shape guard of each element of `storeArrayAsJSON`: an object with a
string `id` and a `value` whose typeof is `object` or `string`. -/
def jsonItemShaped (it : RawItem) : Bool :=
  (match it.id with | .str _ => true | _ => false) &&
  (match it.value with
   | .str _ => true
   | .arr _ => true
   | .objOther => true
   | .absent => false)

/-- The `forEach` body of `storeArrayAsJSON`, threaded over the state: each
item's value is serialised with the platform's `JSON.stringify` (modelled by
`strfy`; `none` models a thrown exception, on which the raw value is used as
the fallback), the result is handed to `store`, and successful stores are
counted. -/
def storeJsonLoop (strfy : JF → Option (List Char)) :
    List RawItem → St → Nat → St × Nat
  | [], st, n => (st, n)
  | it :: rest, st, n =>
    let sc : JF :=
      match strfy it.value with
      | some s => .str s
      | none => it.value
    let r := store { id := it.id, value := sc } st
    storeJsonLoop strfy rest r.2 (if r.1 = true then n + 1 else n)

/-- `Cookies.storeArrayAsJSON(items)`: validate the batch, snapshot
`document.cookie` into the local `cookies`, run the per-item stores, then
execute `document.cookie = cookies`, writing the snapshot back over
whatever the loop stored.  The call returns whether the added count matched
`items.length` — which, when validation failed, compares `0` with `0` and
returns `true`. -/
def storeArrayAsJSON (strfy : JF → Option (List Char)) (items : List RawItem)
    (st : St) : SRes :=
  if 0 < items.length ∧ items.all jsonItemShaped = true then
    let snapshot := st.cookie
    let r := storeJsonLoop strfy items st 0
    let stFinal := { r.1 with cookie := snapshot }
    if items.length = r.2 then { ok := true, st := stFinal, err := none }
    else { ok := false, st := stFinal, err := some (items.length, r.2) }
  else
    { ok := true, st := st, err := none }

end Cookies

example :
    (Cookies.storeArray [⟨.str "a".toList, .str "1".toList⟩,
                         ⟨.str "b".toList, .str "2".toList⟩] ⟨[], true⟩).st.cookie
      = "a=1;b=2".toList := by rfl
example :
    (Cookies.storeArray [⟨.str "a".toList, .absent⟩] ⟨"x=0".toList, true⟩)
      = ⟨false, ⟨"x=0".toList, true⟩, some (0, 0)⟩ := by rfl
example :
    (Cookies.storeAsContainer
      ⟨.str "c".toList, .arr [⟨.str "x".toList, .str "1".toList⟩,
                              ⟨.str "y".toList, .str "2".toList⟩]⟩
      ⟨"a=1".toList, true⟩).2.cookie = "a=1c=x=1&y=2".toList := by rfl

/-! ## `unravel` -/

namespace Cookies

/-- The JSON pass of `unravel`, per cookie.  The source runs
`JSON.parse(cookie.value)` (modelled by `jparse`) inside a `try`: when the
parse throws, the `catch` returns the cookie unchanged; when it succeeds,
the result object is built with `type: parsedType`, and `parsedType` is an
identifier no scope declares, so reading it throws a `ReferenceError` that
the same `catch` swallows — the cookie is again returned unchanged. -/
def jsonPassCookie (jparse : List Char → Option JVal) (c : Cookie) : Cookie :=
  match c.value with
  | .str s =>
    match jparse s with
    | some _ => c
    | none => c
  | _ => c

/-- The container test of the container pass: the value is still a string,
contains a `=` and a `&`, and every `&`-segment splits on `=` into exactly
two parts. -/
def containerQualifies (v : List Char) : Bool :=
  jsIndexOf '=' v ≠ -1 && jsIndexOf '&' v ≠ -1 &&
    (splitOn '&' v).all (fun i => (splitOn '=' i).length = 2)

/-- One `&`-segment of a qualifying value turned into a sub-cookie: id is
the part before the first `=` (not trimmed), value the part after it
(trimmed); a segment without `=` gets an empty value (unreachable when the
value qualified, since every segment then has one `=`). -/
def containerSub (seg : List Char) : SubCookie :=
  if jsIndexOf '=' seg ≠ -1 then
    ⟨(splitOn '=' seg).headI, "string".toList, jsTrim (afterFirst '=' seg)⟩
  else
    ⟨seg, "string".toList, []⟩

/-- The container pass of `unravel`, per cookie: a qualifying string value
is split on `&` into sub-cookies and the cookie reclassified to
`'container'`; anything else is left unchanged. -/
def containerPassCookie (c : Cookie) : Cookie :=
  match c.value with
  | .str v =>
    if containerQualifies v = true then
      ⟨c.id, "container".toList, .arr ((splitOn '&' v).map containerSub)⟩
    else c
  | _ => c

/-- `Cookies.unravel(cookieType)`: decode the store, then run the two
passes.  For any string argument the malformed-argument guard
(`typeof cookieType !== 'string' && ...`) is false and is skipped.  The
pass guards compare `cookieType` against the literal `'string'` — not
`'none'` — so the JSON pass runs for every string mode other than
`'string'` and `'container'`, and the container pass for every string mode
other than `'string'` and `'json'`. -/
def unravel (jparse : List Char → Option JVal) (st : St)
    (cookieType : List Char) : List Cookie :=
  let cookies := all st
  let c1 :=
    if cookieType ≠ "string".toList ∧ cookieType ≠ "container".toList then
      cookies.map (jsonPassCookie jparse)
    else cookies
  let c2 :=
    if cookieType ≠ "string".toList ∧ cookieType ≠ "json".toList then
      c1.map containerPassCookie
    else c1
  c2

end Cookies

example :
    Cookies.unravel (fun _ => none) ⟨"a=x=1&y=2".toList, true⟩ "all".toList =
      [⟨"a".toList, "container".toList,
        .arr [⟨"x".toList, "string".toList, "1".toList⟩,
              ⟨"y".toList, "string".toList, "2".toList⟩]⟩] := by rfl

example :
    Cookies.unravel (fun _ => none) ⟨"a=x=1&y=2".toList, true⟩ "none".toList =
      Cookies.unravel (fun _ => none) ⟨"a=x=1&y=2".toList, true⟩ "all".toList := by
  rfl

example :
    Cookies.unravel (fun s => if s = "5".toList then some (.num 5) else none)
      ⟨"n=5".toList, true⟩ "all".toList =
      [⟨"n".toList, "string".toList, .str "5".toList⟩] := by rfl

/-! ## Lemmas about the string machinery -/

theorem jsTrim_eq_nil_iff (l : List Char) :
    jsTrim l = [] ↔ ∀ x ∈ l, jsWs x = true := by
  simp only [jsTrim, trimEnd, List.reverse_eq_nil_iff,
    List.dropWhile_eq_nil_iff, List.mem_reverse]
  constructor
  · intro h x hx
    rw [← List.takeWhile_append_dropWhile (p := jsWs) (l := l)] at hx
    rcases List.mem_append.mp hx with hx | hx
    · exact List.mem_takeWhile_imp hx
    · exact h x hx
  · intro h x hx
    exact h x ((List.dropWhile_sublist jsWs).subset hx)

theorem jsTrim_ne_nil_of_mem {c : Char} {l : List Char}
    (hc : c ∈ l) (hw : jsWs c = false) : jsTrim l ≠ [] := by
  intro h
  have := (jsTrim_eq_nil_iff l).mp h c hc
  simp [hw] at this

theorem jsTrim_append_ne_nil {a : List Char} (b : List Char)
    (h : jsTrim a ≠ []) : jsTrim (a ++ b) ≠ [] := by
  intro hab
  apply h
  rw [jsTrim_eq_nil_iff] at hab ⊢
  intro x hx
  exact hab x (List.mem_append_left b hx)

theorem splitOnAux_of_not_mem {c : Char} {l : List Char} (h : c ∉ l) :
    splitOnAux c l = (l, []) := by
  induction l with
  | nil => rfl
  | cons x xs ih =>
    have hx : ¬x = c := fun e => h (e ▸ List.mem_cons_self x xs)
    simp only [splitOnAux, ih (fun m => h (List.mem_cons_of_mem x m)), hx,
      if_false]

theorem splitOn_of_not_mem {c : Char} {l : List Char} (h : c ∉ l) :
    splitOn c l = [l] := by
  simp [splitOn, splitOnAux_of_not_mem h]

theorem splitOnAux_append_cons {c : Char} {a : List Char} (b : List Char)
    (h : c ∉ a) :
    splitOnAux c (a ++ c :: b) =
      (a, (splitOnAux c b).1 :: (splitOnAux c b).2) := by
  induction a with
  | nil => simp [splitOnAux]
  | cons x xs ih =>
    have hx : ¬x = c := fun e => h (e ▸ List.mem_cons_self x xs)
    have ihx := ih (fun m => h (List.mem_cons_of_mem x m))
    simp only [List.cons_append, splitOnAux, List.append_eq, ihx, hx, if_false]

theorem splitOn_append_cons {c : Char} {a : List Char} (b : List Char)
    (h : c ∉ a) : splitOn c (a ++ c :: b) = a :: splitOn c b := by
  simp [splitOn, splitOnAux_append_cons b h]

theorem splitOnAux_snd_length (c : Char) (l : List Char) :
    (splitOnAux c l).2.length = l.count c := by
  induction l with
  | nil => simp [splitOnAux]
  | cons x xs ih =>
    by_cases hx : x = c
    · subst hx
      simp [splitOnAux, ih, List.count_cons]
    · simp [splitOnAux, hx, ih, List.count_cons]

theorem splitOn_length (c : Char) (l : List Char) :
    (splitOn c l).length = l.count c + 1 := by
  simp [splitOn, splitOnAux_snd_length]

theorem mem_of_mem_splitOnAux {c x : Char} {l s : List Char}
    (hs : s = (splitOnAux c l).1 ∨ s ∈ (splitOnAux c l).2) (hx : x ∈ s) :
    x ∈ l := by
  induction l generalizing s with
  | nil =>
    rcases hs with hs | hs
    · subst hs; cases hx
    · cases hs
  | cons y ys ih =>
    by_cases hy : y = c
    · subst hy
      simp only [splitOnAux, if_pos rfl] at hs
      rcases hs with hs | hs
      · subst hs; cases hx
      · rcases List.mem_cons.mp hs with hs | hs
        · exact List.mem_cons_of_mem _ (ih (Or.inl hs) hx)
        · exact List.mem_cons_of_mem _ (ih (Or.inr hs) hx)
    · simp only [splitOnAux, if_neg hy] at hs
      rcases hs with hs | hs
      · subst hs
        rcases List.mem_cons.mp hx with hx | hx
        · subst hx; exact List.mem_cons_self _ _
        · exact List.mem_cons_of_mem _ (ih (Or.inl rfl) hx)
      · exact List.mem_cons_of_mem _ (ih (Or.inr hs) hx)

theorem mem_of_mem_splitOn {c x : Char} {l s : List Char}
    (hs : s ∈ splitOn c l) (hx : x ∈ s) : x ∈ l := by
  rcases List.mem_cons.mp hs with hs | hs
  · exact mem_of_mem_splitOnAux (Or.inl hs) hx
  · exact mem_of_mem_splitOnAux (Or.inr hs) hx

theorem jsIndexOf_ge (c : Char) (l : List Char) : -1 ≤ jsIndexOf c l := by
  induction l with
  | nil => simp [jsIndexOf]
  | cons x xs ih =>
    simp only [jsIndexOf]
    split
    · omega
    · split <;> omega

theorem jsIndexOf_ne_neg_one_iff (c : Char) (l : List Char) :
    jsIndexOf c l ≠ -1 ↔ c ∈ l := by
  induction l with
  | nil => simp [jsIndexOf]
  | cons x xs ih =>
    simp only [jsIndexOf, List.mem_cons]
    by_cases hx : x = c
    · simp [hx]
    · have hxc : ¬c = x := fun e => hx e.symm
      simp only [if_neg hx, hxc, false_or]
      rw [← ih]
      have := jsIndexOf_ge c xs
      split <;> omega

theorem jsIndexOf_of_not_mem {c : Char} {l : List Char} (h : c ∉ l) :
    jsIndexOf c l = -1 := by
  by_contra hne
  exact h ((jsIndexOf_ne_neg_one_iff c l).mp hne)

theorem afterFirst_of_not_mem {c : Char} {l : List Char} (h : c ∉ l) :
    afterFirst c l = l := by
  simp [afterFirst, jsIndexOf_of_not_mem h]

theorem jsIndexOf_append_cons {c : Char} {a : List Char} (b : List Char)
    (h : c ∉ a) : jsIndexOf c (a ++ c :: b) = a.length := by
  induction a with
  | nil => simp [jsIndexOf]
  | cons x xs ih =>
    have hx : ¬x = c := fun e => h (e ▸ List.mem_cons_self x xs)
    have ihx := ih (fun m => h (List.mem_cons_of_mem x m))
    simp only [List.cons_append, jsIndexOf, List.append_eq, ihx, if_neg hx]
    have hne : ¬((xs.length : Int) = -1) := by omega
    rw [if_neg hne]
    simp only [List.length_cons]
    push_cast
    ring

theorem afterFirst_append_cons {c : Char} {a : List Char} (b : List Char)
    (h : c ∉ a) : afterFirst c (a ++ c :: b) = b := by
  have hlen : ((a.length : Int) + 1).toNat = a.length + 1 := by omega
  rw [afterFirst, jsIndexOf_append_cons b h, hlen]
  have : a ++ c :: b = (a ++ [c]) ++ b := by simp
  rw [this]
  have hl : a.length + 1 = (a ++ [c]).length := by simp
  rw [hl, List.drop_left]

theorem joinSep_cons (sep : Char) (x : List Char) (xs : List (List Char)) :
    joinSep sep (x :: xs) = x ++ tailSep sep xs := by
  induction xs generalizing x with
  | nil => simp [joinSep, tailSep]
  | cons y ys ih =>
    simp only [joinSep, tailSep, ih y]
    simp

theorem strLoop_of_ne_nil (sep : Char) (ss : List (List Char))
    (acc : List Char) (h : jsTrim acc ≠ []) :
    strLoop sep ss acc = acc ++ tailSep sep ss := by
  induction ss generalizing acc with
  | nil => simp [strLoop, tailSep]
  | cons s rest ih =>
    simp only [strLoop, if_neg h, tailSep]
    rw [ih (acc ++ sep :: s) (jsTrim_append_ne_nil (sep :: s) h)]
    simp

theorem strLoop_of_blank (sep : Char) (s : List Char)
    (rest : List (List Char)) (acc : List Char) (hacc : jsTrim acc = [])
    (hs : jsTrim s ≠ []) :
    strLoop sep (s :: rest) acc = joinSep sep (s :: rest) := by
  simp only [strLoop, if_pos hacc]
  rw [strLoop_of_ne_nil sep rest s hs, joinSep_cons]

theorem splitOn_joinSep {c : Char} {ss : List (List Char)} (hne : ss ≠ [])
    (h : ∀ s ∈ ss, c ∉ s) : splitOn c (joinSep c ss) = ss := by
  induction ss with
  | nil => exact absurd rfl hne
  | cons x xs ih =>
    cases xs with
    | nil =>
      simp only [joinSep]
      exact splitOn_of_not_mem (h x (List.mem_cons_self x []))
    | cons y ys =>
      simp only [joinSep]
      rw [splitOn_append_cons _ (h x (List.mem_cons_self x (y :: ys)))]
      rw [ih (List.cons_ne_nil y ys) (fun s hs => h s (List.mem_cons_of_mem x hs))]

/-! ## Lemmas about decoding one segment -/

theorem decodeSeg_split {i v : List Char} (h : '=' ∉ i) :
    Cookies.decodeSeg (i ++ '=' :: v) =
      ⟨jsTrim i, "string".toList, .str (jsTrim v)⟩ := by
  unfold Cookies.decodeSeg
  rw [splitOn_append_cons v h, afterFirst_append_cons v h]
  rfl

theorem decodeSeg_no_eq {seg : List Char} (h : '=' ∉ seg) :
    Cookies.decodeSeg seg = ⟨jsTrim seg, "string".toList, .str (jsTrim seg)⟩ := by
  unfold Cookies.decodeSeg
  rw [splitOn_of_not_mem h, afterFirst_of_not_mem h]
  rfl

theorem tailSep_cons_eq (sep : Char) (x : List Char) (xs : List (List Char)) :
    tailSep sep (x :: xs) = sep :: joinSep sep (x :: xs) := by
  rw [joinSep_cons]; rfl

/-! ## Claim C1 — round-trip of `storeArray` followed by `all` -/

/-- A Scalar entry given as an (id, value) pair of strings, as the item
object `storeArray` receives. -/
def scalarItem (p : List Char × List Char) : RawItem :=
  ⟨.str p.1, .str p.2⟩

/-- The decoded Cookie the round-trip is expected to give back for an
(id, value) pair. -/
def scalarCookie (p : List Char × List Char) : Cookie :=
  ⟨p.1, "string".toList, .str p.2⟩

/-- The flat text `id=value` of an (id, value) pair. -/
def pairStr (p : List Char × List Char) : List Char :=
  p.1 ++ '=' :: p.2

/-- The string stored in a cookie's value slot (empty for the non-string
slots); used to compare concrete decodings. -/
def cookieValStr (c : Cookie) : List Char :=
  match c.value with
  | .str s => s
  | _ => []

theorem map_decode_pairStr (entries : List (List Char × List Char))
    (hgood : ∀ p ∈ entries,
      '=' ∉ p.1 ∧ jsTrim p.1 = p.1 ∧ jsTrim p.2 = p.2) :
    (entries.map pairStr).map Cookies.decodeSeg = entries.map scalarCookie := by
  induction entries with
  | nil => rfl
  | cons p ps ih =>
    obtain ⟨h1, h3, h4⟩ := hgood p (List.mem_cons_self _ _)
    simp only [List.map_cons]
    rw [show pairStr p = p.1 ++ '=' :: p.2 from rfl, decodeSeg_split h1, h3, h4,
      ih (fun q hq => hgood q (List.mem_cons_of_mem _ hq))]
    rfl

/-- C1 (amended): storing a batch of Scalar entries whose ids and values
avoid `;` and `=` **and carry no leading or trailing whitespace** into an
empty enabled store with `storeArray`, then decoding with `all`, returns
the original sequence: same length and order, every entry Scalar with its
original id and value.  (As frozen, without the whitespace condition, the
claim fails: `all` trims each decoded id and value.) -/
theorem storeArray_all_roundtrip (entries : List (List Char × List Char))
    (hgood : ∀ p ∈ entries,
      (∀ ch ∈ p.1, ch ≠ ';' ∧ ch ≠ '=') ∧
      (∀ ch ∈ p.2, ch ≠ ';' ∧ ch ≠ '=') ∧
      jsTrim p.1 = p.1 ∧ jsTrim p.2 = p.2) :
    Cookies.all (Cookies.storeArray (entries.map scalarItem) ⟨[], true⟩).st =
      entries.map scalarCookie := by
  cases entries with
  | nil => rfl
  | cons p ps =>
    have hall : ((p :: ps).map scalarItem).all Cookies.scalarShaped = true := by
      rw [List.all_eq_true]
      intro it hit
      rcases List.mem_map.mp hit with ⟨q, _, rfl⟩
      rfl
    have hcond : 0 < ((p :: ps).map scalarItem).length ∧
        ((p :: ps).map scalarItem).all Cookies.scalarShaped = true :=
      ⟨by simp, hall⟩
    have hmap : ((p :: ps).map scalarItem).map Cookies.entryStr =
        (p :: ps).map pairStr := by
      rw [List.map_map]; rfl
    have hpmem : '=' ∈ pairStr p :=
      List.mem_append_right _ (List.mem_cons_self _ _)
    have hflat : strLoop ';' ((p :: ps).map pairStr) [] =
        joinSep ';' ((p :: ps).map pairStr) := by
      rw [List.map_cons]
      exact strLoop_of_blank ';' _ _ [] rfl
        (jsTrim_ne_nil_of_mem hpmem (by decide))
    have hsplit : splitOn ';' (joinSep ';' ((p :: ps).map pairStr)) =
        (p :: ps).map pairStr := by
      apply splitOn_joinSep (by simp)
      intro s hs
      rcases List.mem_map.mp hs with ⟨q, hq, rfl⟩
      intro hmem
      rcases List.mem_append.mp hmem with h | h
      · exact ((hgood q hq).1 ';' h).1 rfl
      · rcases List.mem_cons.mp h with h | h
        · exact absurd h (by decide)
        · exact ((hgood q hq).2.1 ';' h).1 rfl
    have htrim : jsTrim (joinSep ';' ((p :: ps).map pairStr)) ≠ [] := by
      apply jsTrim_ne_nil_of_mem _ (show jsWs '=' = false by decide)
      rw [List.map_cons, joinSep_cons]
      exact List.mem_append_left _ hpmem
    have hstep : (Cookies.storeArray ((p :: ps).map scalarItem) ⟨[], true⟩).st =
        ⟨joinSep ';' ((p :: ps).map pairStr), true⟩ := by
      simp only [Cookies.storeArray, if_pos hcond]
      rw [hmap, hflat]
    rw [hstep]
    unfold Cookies.all
    have hen : ¬((⟨joinSep ';' ((p :: ps).map pairStr), true⟩ : St).enabled
        = false) := by simp
    rw [if_neg hen, if_neg htrim, hsplit]
    exact map_decode_pairStr (p :: ps) (fun q hq =>
      ⟨fun hm => ((hgood q hq).1 '=' hm).2 rfl, (hgood q hq).2.2⟩)

/-- C1 witness: the round-trip at the concrete batch `[(a, 1), (b, 22)]`. -/
theorem storeArray_all_roundtrip_witness :
    (∀ p ∈ [("a".toList, "1".toList), ("b".toList, "22".toList)],
      (∀ ch ∈ p.1, ch ≠ ';' ∧ ch ≠ '=') ∧
      (∀ ch ∈ p.2, ch ≠ ';' ∧ ch ≠ '=') ∧
      jsTrim p.1 = p.1 ∧ jsTrim p.2 = p.2) ∧
    Cookies.all (Cookies.storeArray
        ([("a".toList, "1".toList), ("b".toList, "22".toList)].map scalarItem)
        ⟨[], true⟩).st =
      [("a".toList, "1".toList), ("b".toList, "22".toList)].map scalarCookie :=
  ⟨by decide, storeArray_all_roundtrip _ (by decide)⟩

/-- C1 counterexample: with the value `" 1"` — drawn from characters other
than `;` and `=` — the round-trip returns value `"1"`, not `" 1"`: the
decode trims, so the claim as frozen is false. -/
theorem storeArray_roundtrip_trim_cex :
    Cookies.all (Cookies.storeArray [⟨.str "a".toList, .str " 1".toList⟩]
        ⟨[], true⟩).st ≠
      [⟨"a".toList, "string".toList, .str " 1".toList⟩] := by
  intro h
  exact absurd (congrArg (List.map cookieValStr) h) (by decide)

/-! ## Claim C2 — batch validation and atomicity of `storeArray` -/

/-- C2 (amended): for every **non-empty** batch, `storeArray` is
all-or-nothing: when some element fails the Scalar shape validation the
state is unchanged, the call returns `false` and the error counts
`(tried, added) = (0, 0)` are reported; when every element validates the
call returns `true` with no error and the flat string is rewritten once to
the old content followed by all entries in order, `;`-separated (the old
content is dropped when blank).  (As frozen — quantified over *every*
batch — the claim fails on the empty batch, which validates vacuously yet
returns `false`.) -/
theorem storeArray_batch_atomic (items : List RawItem) (st : St)
    (hne : items ≠ []) :
    if items.all Cookies.scalarShaped = true then
      (Cookies.storeArray items st).ok = true ∧
      (Cookies.storeArray items st).err = none ∧
      (Cookies.storeArray items st).st.cookie =
        (if jsTrim st.cookie = [] then
          joinSep ';' (items.map Cookies.entryStr)
         else st.cookie ++ ';' :: joinSep ';' (items.map Cookies.entryStr))
    else
      (Cookies.storeArray items st).ok = false ∧
      (Cookies.storeArray items st).st = st ∧
      (Cookies.storeArray items st).err = some (0, 0) := by
  cases items with
  | nil => exact absurd rfl hne
  | cons it rest =>
    by_cases hall : (it :: rest).all Cookies.scalarShaped = true
    · rw [if_pos hall]
      have hcond : 0 < (it :: rest).length ∧
          (it :: rest).all Cookies.scalarShaped = true := ⟨by simp, hall⟩
      have hemem : '=' ∈ Cookies.entryStr it :=
        List.mem_append_right _ (List.mem_cons_self _ _)
      have hetrim : jsTrim (Cookies.entryStr it) ≠ [] :=
        jsTrim_ne_nil_of_mem hemem (by decide)
      refine ⟨?_, ?_, ?_⟩
      · simp only [Cookies.storeArray, if_pos hcond]
      · simp only [Cookies.storeArray, if_pos hcond]
      · simp only [Cookies.storeArray, if_pos hcond, List.map_cons]
        by_cases hblank : jsTrim st.cookie = []
        · rw [if_pos hblank, strLoop_of_blank ';' _ _ st.cookie hblank hetrim]
        · rw [if_neg hblank, strLoop_of_ne_nil ';' _ st.cookie hblank,
            tailSep_cons_eq]
    · rw [if_neg hall]
      have hcond : ¬(0 < (it :: rest).length ∧
          (it :: rest).all Cookies.scalarShaped = true) := by
        rintro ⟨-, h⟩; exact hall h
      refine ⟨?_, ?_, ?_⟩ <;> simp only [Cookies.storeArray, if_neg hcond]

/-- C2 witness: the amended statement at a concrete mixed batch (second
item has no `value` property): the state `x=0` is untouched, the call
returns `false` and reports counts `(0, 0)`. -/
theorem storeArray_batch_atomic_witness :
    (Cookies.storeArray
        [⟨.str "a".toList, .str "1".toList⟩, ⟨.str "b".toList, JF.absent⟩]
        ⟨"x=0".toList, true⟩).ok = false ∧
    (Cookies.storeArray
        [⟨.str "a".toList, .str "1".toList⟩, ⟨.str "b".toList, JF.absent⟩]
        ⟨"x=0".toList, true⟩).st = ⟨"x=0".toList, true⟩ ∧
    (Cookies.storeArray
        [⟨.str "a".toList, .str "1".toList⟩, ⟨.str "b".toList, JF.absent⟩]
        ⟨"x=0".toList, true⟩).err = some (0, 0) :=
  storeArray_batch_atomic
    [⟨.str "a".toList, .str "1".toList⟩, ⟨.str "b".toList, JF.absent⟩]
    ⟨"x=0".toList, true⟩ (List.cons_ne_nil _ _)

/-- C2 counterexample: the empty batch.  Every element of it passes the
Scalar shape validation (vacuously), yet `storeArray` returns `false` —
against the claim's "if every element validates … the call returns
true". -/
theorem storeArray_empty_batch_cex :
    (([] : List RawItem).all Cookies.scalarShaped = true) ∧
    (Cookies.storeArray [] ⟨[], true⟩).ok = false ∧
    (Cookies.storeArray [] ⟨[], true⟩).st.cookie = [] :=
  ⟨rfl, rfl, rfl⟩

/-! ## Claim C3 — integer query boundaries of `first` -/

/-- C3 (amended): over a decoded sequence of length `N ≥ 1`, `first`
resolves the integer query `N` and the query `-(N+1)` to absent, resolves
`0` to the first Entry, **and also resolves `-N` to absent**: the negative
branch requires `query > -length` strictly, so `-N` is out of range.  (As
frozen the claim says `-N` resolves to the first Entry; that fails.) -/
theorem first_index_boundary (st : St) (N : Nat)
    (hN : (Cookies.all st).length = N) (h1 : 1 ≤ N) :
    Cookies.first st (.int (N : Int)) = none ∧
    Cookies.first st (.int (-((N : Int) + 1))) = none ∧
    Cookies.first st (.int 0) = (Cookies.all st).head? ∧
    Cookies.first st (.int (-(N : Int))) = none := by
  have hlen : (Cookies.all st).length ≠ 0 := by omega
  refine ⟨?_, ?_, ?_, ?_⟩
  all_goals simp only [Cookies.first, if_pos hlen, Cookies.queryFirst]
  all_goals rw [hN]
  · rw [if_neg (by omega), if_neg (by omega)]
  · rw [if_neg (by omega), if_neg (by omega)]
  · rw [if_pos ⟨by omega, by omega⟩]
    generalize Cookies.all st = l
    cases l <;> rfl
  · rw [if_neg (by omega), if_neg (by omega)]

/-- C3 witness: the boundary behavior over the decoded singleton store
`a=1` (`N = 1`). -/
theorem first_index_boundary_witness :
    (Cookies.all ⟨"a=1".toList, true⟩).length = 1 ∧
    (Cookies.first ⟨"a=1".toList, true⟩ (.int ((1 : Nat) : Int)) = none ∧
     Cookies.first ⟨"a=1".toList, true⟩ (.int (-(((1 : Nat) : Int) + 1))) = none ∧
     Cookies.first ⟨"a=1".toList, true⟩ (.int 0) =
       (Cookies.all ⟨"a=1".toList, true⟩).head? ∧
     Cookies.first ⟨"a=1".toList, true⟩ (.int (-((1 : Nat) : Int))) = none) :=
  ⟨rfl, first_index_boundary ⟨"a=1".toList, true⟩ 1 rfl (by decide)⟩

/-- C3 counterexample: over the decoded store `a=1` (length `N = 1`), the
query `-N = -1` resolves to absent while the query `0` resolves to an
Entry, so the two do not resolve to the same (first) Entry as the claim
states. -/
theorem first_neg_len_cex :
    (Cookies.all ⟨"a=1".toList, true⟩).length = 1 ∧
    (Cookies.first ⟨"a=1".toList, true⟩ (.int (-1))).isNone = true ∧
    (Cookies.first ⟨"a=1".toList, true⟩ (.int 0)).isSome = true := by
  decide

/-! ## Claim C4 — `firstIn`/`findIn` versus `first`/`find` resolution -/

/-- C4 evidence: the `every` callback of `firstIn`/`findIn` is a braced
arrow function with no `return`, so it yields `undefined` (falsy) on every
element, the shape validation fails on every non-empty sequence, and both
functions return `null` for every input — while the resolution `first` and
`find` perform (`queryFirst`/`queryFind`) finds the entry with id `a` in
the same supplied sequence. -/
theorem firstIn_findIn_always_none :
    (∀ (cookies : List Cookie) (q : Query),
      Cookies.firstIn cookies q = none ∧ Cookies.findIn cookies q = none) ∧
    Cookies.firstIn [⟨"a".toList, "string".toList, .str "1".toList⟩]
      (.str "a".toList) = none ∧
    (Cookies.queryFirst [⟨"a".toList, "string".toList, .str "1".toList⟩]
      (.str "a".toList)).isSome = true ∧
    Cookies.findIn [⟨"a".toList, "string".toList, .str "1".toList⟩]
      (.str "a".toList) = none ∧
    (Cookies.queryFind [⟨"a".toList, "string".toList, .str "1".toList⟩]
      (.str "a".toList)).isSome = true := by
  refine ⟨?_, by rfl, by rfl, by rfl, by rfl⟩
  intro cookies q
  cases cookies with
  | nil => exact ⟨rfl, rfl⟩
  | cons c cs =>
    have hcb : (c :: cs).all Cookies.everyCb = false := by
      simp [Cookies.everyCb]
    constructor
    · unfold Cookies.firstIn
      rw [if_neg]
      rintro ⟨-, hall⟩
      rw [hcb] at hall
      cases hall
    · unfold Cookies.findIn
      rw [if_neg]
      rintro ⟨-, hall⟩
      rw [hcb] at hall
      cases hall

/-! ## Claims C5–C7 — the `unravel` passes -/

/-- Whatever `JSON.parse` does, the JSON pass returns every cookie
unchanged: the parse-failure branch returns the caught cookie, and the
parse-success branch throws a `ReferenceError` on the undeclared
`parsedType` that the same `catch` turns into the unchanged cookie. -/
theorem jsonPassCookie_id (jparse : List Char → Option JVal) (c : Cookie) :
    Cookies.jsonPassCookie jparse c = c := by
  rcases c with ⟨i, t, v⟩
  cases v with
  | str s =>
    have h : Cookies.jsonPassCookie jparse ⟨i, t, CVal.str s⟩ =
        match jparse s with
        | some _ => (⟨i, t, CVal.str s⟩ : Cookie)
        | none => (⟨i, t, CVal.str s⟩ : Cookie) := rfl
    rw [h]
    cases jparse s <;> rfl
  | jsonV j => rfl
  | arr a => rfl

/-- A `JSON.parse` model for the C5 evidence: on the text `5` it succeeds
with the JSON number `5` (as the platform parse does) and fails
elsewhere. -/
def jparse5 : List Char → Option JVal :=
  fun s => if s = "5".toList then some (.num 5) else none

/-- C5 evidence: the JSON pass of `unravel` reclassifies nothing.  First
conjunct: it is the identity on every cookie for every parse function —
even when the value parses, because the success branch reads the
undeclared identifier `parsedType` and the thrown `ReferenceError` is
swallowed by the `catch`.  At the failing input (store `n=5`, mode `all`,
a parse that succeeds on `"5"`), the output keeps type `'string'` and the
raw value `"5"`, where the claim (and the function's own documentation)
require kind Json with the parsed number `5`. -/
theorem unravel_json_pass_noop :
    (∀ (jparse : List Char → Option JVal) (c : Cookie),
      Cookies.jsonPassCookie jparse c = c) ∧
    jparse5 "5".toList = some (.num 5) ∧
    Cookies.unravel jparse5 ⟨"n=5".toList, true⟩ "all".toList =
      [⟨"n".toList, "string".toList, .str "5".toList⟩] :=
  ⟨jsonPassCookie_id, rfl, rfl⟩

/-- A `JSON.parse` model that always fails (as the platform parse does on
the texts used in the C6/C7 evidence, such as `x=1&y=2`). -/
def jparse0 : List Char → Option JVal := fun _ => none

/-- C7 evidence: the pass guards of `unravel` compare the mode against the
literal `'string'` instead of `'none'`, so under mode `none` both passes
still run: the store `a=x=1&y=2` decodes to a Scalar entry, yet
`unravel(none)` returns it reclassified as a container — identical to the
output of `unravel(all)` — where the claim says mode `none` leaves the
decoded sequence unchanged. -/
theorem unravel_mode_none_runs_passes :
    Cookies.all ⟨"a=x=1&y=2".toList, true⟩ =
      [⟨"a".toList, "string".toList, .str "x=1&y=2".toList⟩] ∧
    Cookies.unravel jparse0 ⟨"a=x=1&y=2".toList, true⟩ "none".toList =
      [⟨"a".toList, "container".toList,
        .arr [⟨"x".toList, "string".toList, "1".toList⟩,
              ⟨"y".toList, "string".toList, "2".toList⟩]⟩] ∧
    Cookies.unravel jparse0 ⟨"a=x=1&y=2".toList, true⟩ "none".toList =
      Cookies.unravel jparse0 ⟨"a=x=1&y=2".toList, true⟩ "all".toList :=
  ⟨rfl, rfl, rfl⟩

/-- C6: the container test and the container pass.  First conjunct: a
string value qualifies as a container exactly when it contains at least
one `&` and every `&`-delimited segment contains exactly one `=`.  Second
and third (for every parse function, i.e. whatever `JSON.parse` does): the
value `x=1&y=2` unravels under mode `all` to a container whose value is
the ordered Scalar sub-entries `x ↦ 1` and `y ↦ 2`, each segment split on
its first `=`, and the value `x=1` (no `&`) stays Scalar. -/
theorem unravel_container_detection :
    (∀ v : List Char, Cookies.containerQualifies v = true ↔
      ('&' ∈ v ∧ ∀ seg ∈ splitOn '&' v, seg.count '=' = 1)) ∧
    (∀ jparse, Cookies.unravel jparse ⟨"a=x=1&y=2".toList, true⟩ "all".toList =
      [⟨"a".toList, "container".toList,
        .arr [⟨"x".toList, "string".toList, "1".toList⟩,
              ⟨"y".toList, "string".toList, "2".toList⟩]⟩]) ∧
    (∀ jparse, Cookies.unravel jparse ⟨"a=x=1".toList, true⟩ "all".toList =
      [⟨"a".toList, "string".toList, .str "x=1".toList⟩]) ∧
    (∀ (i t v : List Char), Cookies.containerQualifies v = true →
      Cookies.containerPassCookie ⟨i, t, .str v⟩ =
        ⟨i, "container".toList, .arr ((splitOn '&' v).map Cookies.containerSub)⟩) ∧
    (∀ (i t v : List Char), Cookies.containerQualifies v = false →
      Cookies.containerPassCookie ⟨i, t, .str v⟩ = ⟨i, t, .str v⟩) := by
  refine ⟨?_, ?_, ?_, ?_, ?_⟩
  · intro v
    unfold Cookies.containerQualifies
    simp only [Bool.and_eq_true, decide_eq_true_eq, List.all_eq_true]
    constructor
    · rintro ⟨⟨-, h2⟩, h3⟩
      refine ⟨(jsIndexOf_ne_neg_one_iff '&' v).mp h2, fun seg hs => ?_⟩
      have := h3 seg hs
      have hlen := splitOn_length '=' seg
      omega
    · rintro ⟨h2, h3⟩
      have hmem : '=' ∈ v := by
        have hhead : v ∈ splitOn '&' v ∨ True := by
          exact Or.inr trivial
        have hfst : (splitOnAux '&' v).1 ∈ splitOn '&' v :=
          List.mem_cons_self _ _
        have hcount := h3 _ hfst
        have : '=' ∈ (splitOnAux '&' v).1 := by
          have := List.count_pos_iff.mp (by omega : 0 < ((splitOnAux '&' v).1.count '='))
          exact this
        exact mem_of_mem_splitOnAux (Or.inl rfl) this
      refine ⟨⟨(jsIndexOf_ne_neg_one_iff '=' v).mpr hmem,
        (jsIndexOf_ne_neg_one_iff '&' v).mpr h2⟩, fun seg hs => ?_⟩
      have hlen := splitOn_length '=' seg
      have := h3 seg hs
      omega
  · intro jparse
    have hc1 : ("all".toList ≠ "string".toList ∧
        "all".toList ≠ "container".toList) := by decide
    have hc2 : ("all".toList ≠ "string".toList ∧
        "all".toList ≠ "json".toList) := by decide
    simp only [Cookies.unravel]
    rw [if_pos hc1, if_pos hc2]
    have hall : Cookies.all ⟨"a=x=1&y=2".toList, true⟩ =
        [⟨"a".toList, "string".toList, .str "x=1&y=2".toList⟩] := rfl
    rw [hall]
    simp only [List.map_cons, List.map_nil, jsonPassCookie_id]
    rfl
  · intro jparse
    have hc1 : ("all".toList ≠ "string".toList ∧
        "all".toList ≠ "container".toList) := by decide
    have hc2 : ("all".toList ≠ "string".toList ∧
        "all".toList ≠ "json".toList) := by decide
    simp only [Cookies.unravel]
    rw [if_pos hc1, if_pos hc2]
    have hall : Cookies.all ⟨"a=x=1".toList, true⟩ =
        [⟨"a".toList, "string".toList, .str "x=1".toList⟩] := rfl
    rw [hall]
    simp only [List.map_cons, List.map_nil, jsonPassCookie_id]
    rfl
  · intro i t v h
    have he : Cookies.containerPassCookie ⟨i, t, .str v⟩ =
        (if Cookies.containerQualifies v = true then
          (⟨i, "container".toList,
            .arr ((splitOn '&' v).map Cookies.containerSub)⟩ : Cookie)
         else ⟨i, t, .str v⟩) := rfl
    rw [he, if_pos h]
  · intro i t v h
    have he : Cookies.containerPassCookie ⟨i, t, .str v⟩ =
        (if Cookies.containerQualifies v = true then
          (⟨i, "container".toList,
            .arr ((splitOn '&' v).map Cookies.containerSub)⟩ : Cookie)
         else ⟨i, t, .str v⟩) := rfl
    rw [he, if_neg (by simp [h])]

/-! ## Claim C8 — `storeAsContainer` -/

/-- C8 (amended): `storeAsContainer` accepts exactly the items whose `id`
is a string and whose `value` is a non-empty array of Scalar-shaped
sub-entries; it packs them as `subid=subvalue` joined by `&` and then
appends `id=<packed>` **directly after the current flat content, with no
`;` separator inserted** (unlike `store`), returning `true`; on any
validation failure nothing is written and it returns `false`.  The
sub-count check always passes, so it rejects nothing.  (As frozen the
claim says the append follows `store`'s separator discipline; it does
not.) -/
theorem storeAsContainer_shape (item : RawItem) (st : St) :
    match item.id, item.value with
    | JF.str idStr, JF.arr subs =>
      if 0 < subs.length ∧ subs.all Cookies.subShaped = true then
        (Cookies.storeAsContainer item st).1 = true ∧
        (Cookies.storeAsContainer item st).2.cookie =
          st.cookie ++ idStr ++ '=' :: joinSep '&' (subs.map Cookies.subStr)
      else Cookies.storeAsContainer item st = (false, st)
    | _, _ => Cookies.storeAsContainer item st = (false, st) := by
  rcases item with ⟨iid, ival⟩
  cases ival with
  | arr subs =>
    cases iid with
    | str idStr =>
      by_cases h : 0 < subs.length ∧ subs.all Cookies.subShaped = true
      · show (if 0 < subs.length ∧ subs.all Cookies.subShaped = true then _ else _ : Prop)
        rw [if_pos h]
        cases subs with
        | nil => exact absurd h.1 (by simp)
        | cons s0 rest =>
          have hsmem : '=' ∈ Cookies.subStr s0 :=
            List.mem_append_right _ (List.mem_cons_self _ _)
          have hstrim : jsTrim (Cookies.subStr s0) ≠ [] :=
            jsTrim_ne_nil_of_mem hsmem (by decide)
          constructor
          · simp only [Cookies.storeAsContainer, eq_self_iff_true, true_and]
            rw [if_pos h]
          · simp only [Cookies.storeAsContainer, eq_self_iff_true, true_and,
              List.map_cons]
            rw [if_pos h,
              strLoop_of_blank '&' _ _ [] (show jsTrim ([] : List Char) = [] from rfl)
                hstrim]
            rfl
      · show (if 0 < subs.length ∧ subs.all Cookies.subShaped = true then _ else _ : Prop)
        rw [if_neg h]
        simp only [Cookies.storeAsContainer, eq_self_iff_true, true_and]
        rw [if_neg h]
    | absent =>
      have hcond : ¬((false = true) ∧ 0 < subs.length ∧
          subs.all Cookies.subShaped = true) := by rintro ⟨h0, -⟩; cases h0
      simp only [Cookies.storeAsContainer, if_neg hcond]
    | arr xs =>
      have hcond : ¬((false = true) ∧ 0 < subs.length ∧
          subs.all Cookies.subShaped = true) := by rintro ⟨h0, -⟩; cases h0
      simp only [Cookies.storeAsContainer, if_neg hcond]
    | objOther =>
      have hcond : ¬((false = true) ∧ 0 < subs.length ∧
          subs.all Cookies.subShaped = true) := by rintro ⟨h0, -⟩; cases h0
      simp only [Cookies.storeAsContainer, if_neg hcond]
  | absent => cases iid <;> rfl
  | str s => cases iid <;> rfl
  | objOther => cases iid <;> rfl

/-- C8 counterexample: storing the container item `c ↦ [x ↦ 1]` over the
existing content `a=1` writes `a=1c=x=1` — the entry is concatenated with
no `;` before it — not the `a=1;c=x=1` the claim's separator discipline
predicts; the call still returns `true`. -/
theorem storeAsContainer_separator_cex :
    (Cookies.storeAsContainer
        ⟨.str "c".toList, .arr [⟨.str "x".toList, .str "1".toList⟩]⟩
        ⟨"a=1".toList, true⟩).1 = true ∧
    (Cookies.storeAsContainer
        ⟨.str "c".toList, .arr [⟨.str "x".toList, .str "1".toList⟩]⟩
        ⟨"a=1".toList, true⟩).2.cookie = "a=1c=x=1".toList ∧
    (Cookies.storeAsContainer
        ⟨.str "c".toList, .arr [⟨.str "x".toList, .str "1".toList⟩]⟩
        ⟨"a=1".toList, true⟩).2.cookie ≠ "a=1;c=x=1".toList := by
  refine ⟨rfl, rfl, ?_⟩
  decide

/-! ## Claim C9 — `storeArrayAsJSON` writes its snapshot back -/

/-- C9: for every batch the shape validation accepts, `storeArrayAsJSON`
ends with `document.cookie = cookies`, where `cookies` was captured before
the per-item loop: under whole-string write semantics the final flat
content equals the content at call entry, however many entries the
intervening `store` calls appended — and this holds for every behavior of
the platform `JSON.stringify`. -/
theorem storeArrayAsJSON_restores_snapshot (strfy : JF → Option (List Char))
    (items : List RawItem) (st : St)
    (h : 0 < items.length ∧ items.all Cookies.jsonItemShaped = true) :
    (Cookies.storeArrayAsJSON strfy items st).st.cookie = st.cookie := by
  simp only [Cookies.storeArrayAsJSON, if_pos h]
  split <;> rfl

/-- A `JSON.stringify` model for the C9 witness: always throws. -/
def strfy0 : JF → Option (List Char) := fun _ => none

/-- C9 witness: the snapshot restore at a concrete accepted batch over the
content `z=9`. -/
theorem storeArrayAsJSON_restores_snapshot_witness :
    (0 < ([⟨.str "a".toList, .str "v".toList⟩] : List RawItem).length ∧
      ([⟨.str "a".toList, .str "v".toList⟩] : List RawItem).all
        Cookies.jsonItemShaped = true) ∧
    (Cookies.storeArrayAsJSON strfy0 [⟨.str "a".toList, .str "v".toList⟩]
        ⟨"z=9".toList, true⟩).st.cookie = "z=9".toList :=
  ⟨by decide, storeArrayAsJSON_restores_snapshot strfy0
    [⟨.str "a".toList, .str "v".toList⟩] ⟨"z=9".toList, true⟩ (by decide)⟩

/-! ## Claim C10 — segments without `=` decode to id = value -/

/-- C10: every `;`-segment of the flat string containing no `=` decodes
(under an enabled, non-blank store) to an Entry whose id and value are
both the whole trimmed segment text: `split('=')[0]` is the whole segment
and `substring(indexOf('=') + 1)` is `substring(0)` — the whole segment
again. -/
theorem all_segment_without_eq (st : St) (hen : st.enabled = true)
    (hnb : jsTrim st.cookie ≠ []) (i : Nat) (seg : List Char)
    (hseg : (splitOn ';' st.cookie).get? i = some seg) (hne : '=' ∉ seg) :
    (Cookies.all st).get? i =
      some ⟨jsTrim seg, "string".toList, .str (jsTrim seg)⟩ := by
  unfold Cookies.all
  rw [hen]
  have h1 : ¬(true = false) := by simp
  rw [if_neg h1, if_neg hnb, List.get?_map, hseg, Option.map_some',
    decodeSeg_no_eq hne]

/-- C10 witness: the store `abc` (one segment, no `=`) decodes to the
Entry with id `abc` and value `abc`. -/
theorem all_segment_without_eq_witness :
    ('=' ∉ "abc".toList) ∧
    (Cookies.all ⟨"abc".toList, true⟩).get? 0 =
      some ⟨"abc".toList, "string".toList, .str "abc".toList⟩ :=
  ⟨by decide, all_segment_without_eq ⟨"abc".toList, true⟩ rfl (by decide) 0
    "abc".toList rfl (by decide)⟩
